import Mathlib

/-!
# Verification of the root-finding engines

Shallow embedding of the iteration engines of the Finding_Root_Comparison
repository (`Bisect_Method.py`, `Newton_Method.py`, `Secant_Method.py`,
`main.py`).  Real numbers are modelled as `ℚ`; every Python `for i in
range(lo, hi)` loop becomes structural recursion on a fuel argument equal to
the number of passes of the range.  Each loop additionally threads ghost
instrumentation that is invisible to the Python return value:

* `slopes`  — the divisor used each time a division by the slope is performed
  (Newton's `fp`, secant's `fx1 - fx0`);
* `passes`  — the number of loop passes executed;
* `prints`  — the length of the stdout stream, the only side effect of the
  source functions (each `print` call adds one);
* `intervals` — for bisection, the bracket `(a, b)` active when each midpoint
  is formed (recorded verbatim by `bisect_animation` in the source).

The loop-level outcome (`converged` / `exhausted` / guard trip) is returned
as a ghost tag next to the state; the functions named after the Python
functions are projections that forget the ghost data and return exactly what
the Python code returns.
-/

namespace RootFind

/-- `sign` from `Bisect_Method.py`: `-1` for negatives, `+1` otherwise
    (so `sign 0 = 1`). -/
def sign (a : ℚ) : Int :=
  if a < 0 then -1 else 1

/-- Return value of the non-plotting `bisect_method`: the `"Same Sign"`
    string, the `"Root found at (c, fc)"` string (modelled with its numeric
    payload), or Python's implicit `None` when the loop falls through. -/
inductive BisectRes where
  | sameSign : BisectRes
  | rootFound (c fc : ℚ) : BisectRes
  | fellThrough : BisectRes
  deriving DecidableEq

/-- Ghost tag telling why a bisection loop stopped; `converged` carries the
    half-width `e2` and value `fc` that met the tolerance test
    `|e2| < err1 ∨ |fc| < epsilon` on the stopping pass. -/
inductive BisectOutcome where
  | converged (e2 fc : ℚ) : BisectOutcome
  | exhausted : BisectOutcome
  deriving DecidableEq

/-- Loop of `bisect_method` (`Bisect_Method.py` lines 20-34), fuel = number of
    passes of `range(1, M)`.  State: `a b fa fb e`.  Besides the Python
    return value it carries a ghost outcome tag (recording the half-width
    and value of the stopping pass) and a ghost pass counter.  Note the
    source's `fa = c` assignment (not `fa = fc`) on the `a`-replacement
    branch, reproduced faithfully here. -/
def bisectLoop (f : ℚ → ℚ) (err1 epsilon : ℚ) :
    Nat → ℚ → ℚ → ℚ → ℚ → ℚ → Nat → BisectRes × BisectOutcome × Nat
  | 0, _, _, _, _, _, k => (.fellThrough, .exhausted, k)
  | n + 1, a, b, fa, fb, e, k =>
    let e2 := e / 2
    let c := a + e2
    let fc := f c
    if |e2| < err1 ∨ |fc| < epsilon then
      (.rootFound c fc, .converged e2 fc, k + 1)
    else if sign fc ≠ sign (f a) then
      bisectLoop f err1 epsilon n a c fa fc e2 (k + 1)
    else
      bisectLoop f err1 epsilon n c b c fb e2 (k + 1)

/-- `bisect_method` with the ghost outcome and pass counter kept.  In the
    same-sign branch the loop never runs: the outcome tag stays at its
    `exhausted` default and the pass counter at `0` (the first disjunct of
    any theorem about this branch is keyed on the `sameSign` return value,
    not on the ghost tag). -/
def bisect_method_run (a b : ℚ) (M : Nat) (err1 epsilon : ℚ) (f : ℚ → ℚ) :
    BisectRes × BisectOutcome × Nat :=
  let fa := f a
  let fb := f b
  let e := b - a
  if sign fa = sign fb then (.sameSign, .exhausted, 0)
  else bisectLoop f err1 epsilon (M - 1) a b fa fb e 0

/-- `bisect_method` from `Bisect_Method.py` (lines 11-34). -/
def bisect_method (a b : ℚ) (M : Nat) (err1 epsilon : ℚ) (f : ℚ → ℚ) :
    BisectRes :=
  (bisect_method_run a b M err1 epsilon f).1

/-- The corrected loop described by the claim: identical to `bisectLoop`
    except that the `a`-replacement branch assigns `fa := fc`. -/
def bisectLoopFixed (f : ℚ → ℚ) (err1 epsilon : ℚ) :
    Nat → ℚ → ℚ → ℚ → ℚ → ℚ → Nat → BisectRes × BisectOutcome × Nat
  | 0, _, _, _, _, _, k => (.fellThrough, .exhausted, k)
  | n + 1, a, b, fa, fb, e, k =>
    let e2 := e / 2
    let c := a + e2
    let fc := f c
    if |e2| < err1 ∨ |fc| < epsilon then
      (.rootFound c fc, .converged e2 fc, k + 1)
    else if sign fc ≠ sign (f a) then
      bisectLoopFixed f err1 epsilon n a c fa fc e2 (k + 1)
    else
      bisectLoopFixed f err1 epsilon n c b fc fb e2 (k + 1)

/-- Corrected variant of `bisect_method` (assigning `fa := fc`). -/
def bisect_method_fixed (a b : ℚ) (M : Nat) (err1 epsilon : ℚ) (f : ℚ → ℚ) :
    BisectRes :=
  (if sign (f a) = sign (f b) then ((.sameSign : BisectRes), BisectOutcome.exhausted, 0)
   else bisectLoopFixed f err1 epsilon (M - 1) a b (f a) (f b) (b - a) 0).1

/-- Ghost-instrumented state of the `bisect_method_with_plot` loop. -/
structure BisectPlotState where
  x_vals : List ℚ
  fx_vals : List ℚ
  intervals : List (ℚ × ℚ)
  passes : Nat
  prints : Nat
  deriving DecidableEq

/-- Loop of `bisect_method_with_plot` (`Bisect_Method.py` lines 48-65), fuel =
    number of passes of `range(1, M + 1)`.  This variant assigns `fa := fc`
    correctly.  The bracket `(a, b)` active when each midpoint is formed is
    recorded, as `bisect_animation` does in the source. -/
def bisectPlotLoop (f : ℚ → ℚ) (err1 epsilon : ℚ) :
    Nat → ℚ → ℚ → ℚ → ℚ → ℚ → BisectPlotState → BisectOutcome × BisectPlotState
  | 0, _, _, _, _, _, s => (.exhausted, s)
  | n + 1, a, b, fa, fb, e, s =>
    let e2 := e / 2
    let c := a + e2
    let fc := f c
    let s1 : BisectPlotState :=
      { x_vals := s.x_vals ++ [c]
        fx_vals := s.fx_vals ++ [fc]
        intervals := s.intervals ++ [(a, b)]
        passes := s.passes + 1
        prints := s.prints + 1 }
    if |e2| < err1 ∨ |fc| < epsilon then
      (.converged e2 fc, { s1 with prints := s1.prints + 1 })
    else if sign fc ≠ sign (f a) then
      bisectPlotLoop f err1 epsilon n a c fa fc e2 s1
    else
      bisectPlotLoop f err1 epsilon n c b fc fb e2 s1

/-- The loop of `bisect_method_with_plot` started from its entry state, with
    an arbitrary incoming stdout-stream length `p` (the entry `print` adds
    one line). -/
def bisect_plot_core (a b : ℚ) (M : Nat) (err1 epsilon : ℚ) (f : ℚ → ℚ)
    (p : Nat) : BisectOutcome × BisectPlotState :=
  bisectPlotLoop f err1 epsilon M a b (f a) (f b) (b - a)
    { x_vals := [], fx_vals := [], intervals := [], passes := 0,
      prints := p + 1 }

/-- Return value of the `*_with_plot` bisection variant: the `"Same Sign"`
    string or the pair of sequences `(x_vals, fx_vals)`. -/
inductive PlotRes where
  | sameSign : PlotRes
  | seqs (x_vals fx_vals : List ℚ) : PlotRes
  deriving DecidableEq

/-- `bisect_method_with_plot` from `Bisect_Method.py` (lines 36-67). -/
def bisect_method_with_plot (a b : ℚ) (M : Nat) (err1 epsilon : ℚ)
    (f : ℚ → ℚ) : PlotRes :=
  if sign (f a) = sign (f b) then .sameSign
  else
    let r := bisect_plot_core a b M err1 epsilon f 0
    .seqs r.2.x_vals r.2.fx_vals

/-- Ghost-instrumented state of the Newton loops.  `slopes` records each
    divisor `fp` actually used in a division `d = fx / fp`. -/
structure NewtonPlotState where
  x_vals : List ℚ
  fx_vals : List ℚ
  slopes : List ℚ
  passes : Nat
  prints : Nat
  deriving DecidableEq

/-- Ghost tag telling why a Newton loop stopped; `converged` carries the step
    `d` and value `fx` that met the tolerance test. -/
inductive NewtonOutcome where
  | smallDerivative : NewtonOutcome
  | converged (d fx : ℚ) : NewtonOutcome
  | exhausted : NewtonOutcome
  deriving DecidableEq

/-- Loop of `newton_method_with_plot` (`Newton_Method.py` lines 149-167),
    fuel = number of passes of `range(1, nmax + 1)`. -/
def newtonPlotLoop (f fprime : ℚ → ℚ) (err1 err2 epsilon : ℚ) :
    Nat → ℚ → ℚ → NewtonPlotState → NewtonOutcome × NewtonPlotState
  | 0, _, _, s => (.exhausted, s)
  | n + 1, x, fx, s =>
    let fp := fprime x
    if |fp| < epsilon then
      (.smallDerivative, { s with passes := s.passes + 1,
                                  prints := s.prints + 1 })
    else
      let d := fx / fp
      let x1 := x - d
      let fx1 := f x1
      let s1 : NewtonPlotState :=
        { x_vals := s.x_vals ++ [x1]
          fx_vals := s.fx_vals ++ [fx1]
          slopes := s.slopes ++ [fp]
          passes := s.passes + 1
          prints := s.prints + 1 }
      if |d| < err1 ∨ |fx1| < err2 then
        (.converged d fx1, { s1 with prints := s1.prints + 1 })
      else newtonPlotLoop f fprime err1 err2 epsilon n x1 fx1 s1

/-- The loop of `newton_method_with_plot` started from its entry state
    (`x_vals = [x0]`, `fx_vals = [f x0]`), with an arbitrary incoming
    stdout-stream length `p` (the two entry `print` calls add two lines). -/
def newton_plot_core (f fprime : ℚ → ℚ) (x0 : ℚ) (nmax : Nat)
    (err1 err2 epsilon : ℚ) (p : Nat) : NewtonOutcome × NewtonPlotState :=
  newtonPlotLoop f fprime err1 err2 epsilon nmax x0 (f x0)
    { x_vals := [x0], fx_vals := [f x0], slopes := [], passes := 0,
      prints := p + 2 }

/-- `newton_method_with_plot` from `Newton_Method.py` (lines 137-169). -/
def newton_method_with_plot (f fprime : ℚ → ℚ) (x0 : ℚ) (nmax : Nat)
    (err1 err2 epsilon : ℚ) : List ℚ × List ℚ :=
  let r := newton_plot_core f fprime x0 nmax err1 err2 epsilon 0
  (r.2.x_vals, r.2.fx_vals)

/-- Return value of the non-plotting `newton_method` and `secant_method`: the
    `"Zero at (x, fx)"` string (modelled with its numeric payload) or
    Python's `None`, which these functions return both on a guard trip and
    when the loop falls through. -/
inductive RootRes where
  | zeroAt (x fx : ℚ) : RootRes
  | noneVal : RootRes
  deriving DecidableEq

/-- Loop of the non-plotting `newton_method` (`Newton_Method.py` lines
    22-34 of its file), fuel = number of passes of `range(1, nmax)`.
    Returns the Python return value, a ghost outcome tag, and a ghost pass
    counter. -/
def newtonLoop (f fprime : ℚ → ℚ) (err1 err2 epsilon : ℚ) :
    Nat → ℚ → ℚ → Nat → RootRes × NewtonOutcome × Nat
  | 0, _, _, k => (.noneVal, .exhausted, k)
  | n + 1, x, fx, k =>
    let fp := fprime x
    if |fp| < epsilon then (.noneVal, .smallDerivative, k + 1)
    else
      let d := fx / fp
      let x1 := x - d
      let fx1 := f x1
      if |d| < err1 ∨ |fx1| < err2 then (.zeroAt x1 fx1, .converged d fx1, k + 1)
      else newtonLoop f fprime err1 err2 epsilon n x1 fx1 (k + 1)

/-- `newton_method` with ghost outcome and pass counter kept. -/
def newton_method_run (f fprime : ℚ → ℚ) (x : ℚ) (nmax : Nat)
    (err1 err2 epsilon : ℚ) : RootRes × NewtonOutcome × Nat :=
  newtonLoop f fprime err1 err2 epsilon (nmax - 1) x (f x) 0

/-- `newton_method` from `Newton_Method.py` (non-plotting variant). -/
def newton_method (f fprime : ℚ → ℚ) (x : ℚ) (nmax : Nat)
    (err1 err2 epsilon : ℚ) : RootRes :=
  (newton_method_run f fprime x nmax err1 err2 epsilon).1

/-- Ghost-instrumented state of the secant loops.  `slopes` records each
    divisor `fx1 - fx0` actually used in a division. -/
structure SecantPlotState where
  x_vals : List ℚ
  fx_vals : List ℚ
  slopes : List ℚ
  passes : Nat
  prints : Nat
  deriving DecidableEq

/-- Ghost tag telling why a secant loop stopped. -/
inductive SecantOutcome where
  | smallDiff : SecantOutcome
  | converged (d fx : ℚ) : SecantOutcome
  | exhausted : SecantOutcome
  deriving DecidableEq

/-- Loop of `secant_method_with_plot` (`Secant_Method.py` lines 37-54 of its
    file), fuel = number of passes of `range(1, nmax + 1)`.  State: the last
    two iterates `x0 x1` with their values `fx0 fx1` (the source's
    `x0, x1 = x1, x1 - d` / `fx0, fx1 = fx1, f(x1)` window shift). -/
def secantPlotLoop (f : ℚ → ℚ) (err1 err2 epsilon : ℚ) :
    Nat → ℚ → ℚ → ℚ → ℚ → SecantPlotState → SecantOutcome × SecantPlotState
  | 0, _, _, _, _, s => (.exhausted, s)
  | n + 1, x0, x1, fx0, fx1, s =>
    if |fx1 - fx0| < epsilon then
      (.smallDiff, { s with passes := s.passes + 1, prints := s.prints + 1 })
    else
      let d := fx1 * (x1 - x0) / (fx1 - fx0)
      let x2 := x1 - d
      let fx2 := f x2
      let s1 : SecantPlotState :=
        { x_vals := s.x_vals ++ [x2]
          fx_vals := s.fx_vals ++ [fx2]
          slopes := s.slopes ++ [fx1 - fx0]
          passes := s.passes + 1
          prints := s.prints + 1 }
      if |d| < err1 ∨ |fx2| < err2 then
        (.converged d fx2, { s1 with prints := s1.prints + 1 })
      else secantPlotLoop f err1 err2 epsilon n x1 x2 fx1 fx2 s1

/-- The loop of `secant_method_with_plot` started from its entry state
    (`x_vals = [x0, x1]`, `fx_vals = [f x0, f x1]`), with an arbitrary
    incoming stdout-stream length `p`. -/
def secant_plot_core (f : ℚ → ℚ) (x0 x1 : ℚ) (nmax : Nat)
    (err1 err2 epsilon : ℚ) (p : Nat) : SecantOutcome × SecantPlotState :=
  secantPlotLoop f err1 err2 epsilon nmax x0 x1 (f x0) (f x1)
    { x_vals := [x0, x1], fx_vals := [f x0, f x1], slopes := [], passes := 0,
      prints := p + 2 }

/-- `secant_method_with_plot` from `Secant_Method.py` (lines 25-56 of its
    file). -/
def secant_method_with_plot (f : ℚ → ℚ) (x0 x1 : ℚ) (nmax : Nat)
    (err1 err2 epsilon : ℚ) : List ℚ × List ℚ :=
  let r := secant_plot_core f x0 x1 nmax err1 err2 epsilon 0
  (r.2.x_vals, r.2.fx_vals)

/-- Loop of the non-plotting `secant_method`, fuel = number of passes of
    `range(1, nmax)`.  Returns the Python return value, a ghost outcome tag,
    and a ghost pass counter. -/
def secantLoop (f : ℚ → ℚ) (err1 err2 epsilon : ℚ) :
    Nat → ℚ → ℚ → ℚ → ℚ → Nat → RootRes × SecantOutcome × Nat
  | 0, _, _, _, _, k => (.noneVal, .exhausted, k)
  | n + 1, x0, x1, fx0, fx1, k =>
    if |fx1 - fx0| < epsilon then (.noneVal, .smallDiff, k + 1)
    else
      let d := fx1 * (x1 - x0) / (fx1 - fx0)
      let x2 := x1 - d
      let fx2 := f x2
      if |d| < err1 ∨ |fx2| < err2 then (.zeroAt x2 fx2, .converged d fx2, k + 1)
      else secantLoop f err1 err2 epsilon n x1 x2 fx1 fx2 (k + 1)

/-- `secant_method` with ghost outcome and pass counter kept. -/
def secant_method_run (f : ℚ → ℚ) (x0 x1 : ℚ) (nmax : Nat)
    (err1 err2 epsilon : ℚ) : RootRes × SecantOutcome × Nat :=
  secantLoop f err1 err2 epsilon (nmax - 1) x0 x1 (f x0) (f x1) 0

/-- `secant_method` from `Secant_Method.py` (non-plotting variant). -/
def secant_method (f : ℚ → ℚ) (x0 x1 : ℚ) (nmax : Nat)
    (err1 err2 epsilon : ℚ) : RootRes :=
  (secant_method_run f x0 x1 nmax err1 err2 epsilon).1

/-- `f2` from `main.py`: `x ** 2 - 1`. -/
def f2 (x : ℚ) : ℚ :=
  x ^ 2 - 1

end RootFind

namespace RootFind

theorem bisectLoop_eq_fixed (f : ℚ → ℚ) (err1 epsilon : ℚ) :
    ∀ (n : Nat) (a b fa fa' fb fb' e : ℚ) (k : Nat),
      bisectLoop f err1 epsilon n a b fa fb e k
        = bisectLoopFixed f err1 epsilon n a b fa' fb' e k := by
  intro n
  induction n with
  | zero => intro a b fa fa' fb fb' e k; rfl
  | succ n ih =>
    intro a b fa fa' fb fb' e k
    simp only [bisectLoop, bisectLoopFixed]
    split_ifs with h1 h2
    · rfl
    · exact ih a (a + e / 2) fa fa' (f (a + e / 2)) (f (a + e / 2)) (e / 2)
        (k + 1)
    · exact ih (a + e / 2) b (a + e / 2) (f (a + e / 2)) fb fb' (e / 2) (k + 1)

/-- Claim C9: in `bisect_method` the variable `fa` is never read after the
    loop is entered (every in-loop sign comparison re-evaluates `f(a)`), so
    the `fa = c` assignment on the `a`-replacement branch has no effect: the
    function returns the same result as the corrected variant that assigns
    `fa = fc`. -/
theorem bisect_fa_assignment_immaterial (a b : ℚ) (M : Nat)
    (err1 epsilon : ℚ) (f : ℚ → ℚ) :
    bisect_method a b M err1 epsilon f = bisect_method_fixed a b M err1 epsilon f := by
  unfold bisect_method bisect_method_run bisect_method_fixed
  by_cases h : sign (f a) = sign (f b)
  · simp [h]
  · simp only [h, if_neg, if_false]
    rw [bisectLoop_eq_fixed f err1 epsilon (M - 1) a b (f a) (f a) (f b) (f b)
      (b - a) 0]

theorem newtonPlotLoop_slopes (f fprime : ℚ → ℚ) (err1 err2 epsilon : ℚ) :
    ∀ (n : Nat) (x fx : ℚ) (s : NewtonPlotState),
      (∀ t ∈ s.slopes, epsilon ≤ |t|) →
      ∀ t ∈ (newtonPlotLoop f fprime err1 err2 epsilon n x fx s).2.slopes,
        epsilon ≤ |t| := by
  intro n
  induction n with
  | zero => intro x fx s hs; exact hs
  | succ n ih =>
    intro x fx s hs
    simp only [newtonPlotLoop]
    split_ifs with h1 h2
    · exact hs
    · intro t ht
      rcases List.mem_append.1 ht with h | h
      · exact hs t h
      · rcases List.mem_singleton.1 h with rfl
        exact le_of_not_lt h1
    · refine ih _ _ _ ?_
      intro t ht
      rcases List.mem_append.1 ht with h | h
      · exact hs t h
      · rcases List.mem_singleton.1 h with rfl
        exact le_of_not_lt h1

theorem secantPlotLoop_slopes (f : ℚ → ℚ) (err1 err2 epsilon : ℚ) :
    ∀ (n : Nat) (x0 x1 fx0 fx1 : ℚ) (s : SecantPlotState),
      (∀ t ∈ s.slopes, epsilon ≤ |t|) →
      ∀ t ∈ (secantPlotLoop f err1 err2 epsilon n x0 x1 fx0 fx1 s).2.slopes,
        epsilon ≤ |t| := by
  intro n
  induction n with
  | zero => intro x0 x1 fx0 fx1 s hs; exact hs
  | succ n ih =>
    intro x0 x1 fx0 fx1 s hs
    simp only [secantPlotLoop]
    split_ifs with h1 h2
    · exact hs
    · intro t ht
      rcases List.mem_append.1 ht with h | h
      · exact hs t h
      · rcases List.mem_singleton.1 h with rfl
        exact le_of_not_lt h1
    · refine ih _ _ _ _ _ ?_
      intro t ht
      rcases List.mem_append.1 ht with h | h
      · exact hs t h
      · rcases List.mem_singleton.1 h with rfl
        exact le_of_not_lt h1

/-- Claim C1: in every Newton and secant run, division by the slope is
    attempted only after the smallness guard has passed: every divisor `fp`
    recorded by the Newton loop satisfies `epsilon ≤ |fp|`, and every divisor
    `fx1 - fx0` recorded by the secant loop satisfies
    `epsilon ≤ |fx1 - fx0|`; a division by a slope smaller than the guard is
    unreachable. -/
theorem slope_guard_before_division :
    (∀ (f fprime : ℚ → ℚ) (x0 : ℚ) (nmax : Nat) (err1 err2 epsilon : ℚ)
       (p : Nat),
       ∀ t ∈ (newton_plot_core f fprime x0 nmax err1 err2 epsilon p).2.slopes,
         epsilon ≤ |t|) ∧
    (∀ (f : ℚ → ℚ) (x0 x1 : ℚ) (nmax : Nat) (err1 err2 epsilon : ℚ)
       (p : Nat),
       ∀ t ∈ (secant_plot_core f x0 x1 nmax err1 err2 epsilon p).2.slopes,
         epsilon ≤ |t|) := by
  constructor
  · intro f fprime x0 nmax err1 err2 epsilon p
    exact newtonPlotLoop_slopes f fprime err1 err2 epsilon nmax x0 (f x0) _
      (by intro t ht; simp at ht)
  · intro f x0 x1 nmax err1 err2 epsilon p
    exact secantPlotLoop_slopes f err1 err2 epsilon nmax x0 x1 (f x0) (f x1) _
      (by intro t ht; simp at ht)

theorem slope_guard_before_division_witness :
    ((1 : ℚ) ∈ (newton_plot_core (fun x => x - 1) (fun _ => 1) 0 1 0 0
        ((1 : ℚ)/2) 0).2.slopes
      ∧ (1 : ℚ)/2 ≤ |(1 : ℚ)|) ∧
    ((2 : ℚ) ∈ (secant_plot_core (fun x => x - 1) 0 2 1 0 0
        ((1 : ℚ)/2) 0).2.slopes
      ∧ (1 : ℚ)/2 ≤ |(2 : ℚ)|) :=
  ⟨⟨by norm_num [newton_plot_core, newtonPlotLoop],
    slope_guard_before_division.1 (fun x => x - 1) (fun _ => 1) 0 1 0 0
      ((1 : ℚ)/2) 0 1 (by norm_num [newton_plot_core, newtonPlotLoop])⟩,
   ⟨by norm_num [secant_plot_core, secantPlotLoop],
    slope_guard_before_division.2 (fun x => x - 1) 0 2 1 0 0
      ((1 : ℚ)/2) 0 2 (by norm_num [secant_plot_core, secantPlotLoop])⟩⟩

/-- Claim C3: when `sign (f a) = sign (f b)` at entry, both bisection
    variants fail immediately with the `"Same Sign"` sentinel before entering
    the loop, and the returned value is distinct from any sequence result. -/
theorem bisection_same_sign_rejected (a b : ℚ) (M : Nat) (err1 epsilon : ℚ)
    (f : ℚ → ℚ) (h : sign (f a) = sign (f b)) :
    bisect_method_with_plot a b M err1 epsilon f = .sameSign ∧
    bisect_method a b M err1 epsilon f = .sameSign ∧
    ∀ xs ys, bisect_method_with_plot a b M err1 epsilon f ≠ .seqs xs ys := by
  refine ⟨?_, ?_, ?_⟩
  · simp [bisect_method_with_plot, h]
  · simp [bisect_method, bisect_method_run, h]
  · intro xs ys
    simp [bisect_method_with_plot, h]

theorem bisection_same_sign_rejected_witness :
    sign ((fun x => x) (1 : ℚ)) = sign ((fun x => x) (2 : ℚ)) ∧
    (bisect_method_with_plot 1 2 5 ((1 : ℚ)/2) ((1 : ℚ)/2) (fun x => x)
        = .sameSign ∧
     bisect_method 1 2 5 ((1 : ℚ)/2) ((1 : ℚ)/2) (fun x => x) = .sameSign ∧
     ∀ xs ys, bisect_method_with_plot 1 2 5 ((1 : ℚ)/2) ((1 : ℚ)/2)
        (fun x => x) ≠ .seqs xs ys) :=
  ⟨by decide,
   bisection_same_sign_rejected 1 2 5 ((1 : ℚ)/2) ((1 : ℚ)/2) (fun x => x)
     (by decide)⟩

/-- Counterexample to claim C4 as stated, on two counts.  First run:
    `newton_method` with `nmax = 3` and tolerances `0` (so no stopping test
    can ever pass and the guard never trips) exhausts its loop after only 2
    passes — `range(1, nmax)` performs `nmax - 1` passes, not `nmax`.
    Second run: with the derivative evaluator constantly `0` and
    `epsilon = 1`, the slope guard trips on the first pass, so the run stops
    after 1 pass with final iterate `x0 = 0` — the iteration count `1`
    differs from `nmax = 3`, no step `d` was ever computed, and the final
    value fails its tolerance (`¬ |0 - 1| < 0`): none of the claim's three
    disjuncts holds on a slope-guard stop. -/
theorem iteration_count_claim_cex :
    (newton_method_run (fun x => x - 1) (fun _ => 1) 0 3 0 0 0
      = (.noneVal, .exhausted, 2) ∧ (2 : Nat) ≠ 3) ∧
    (newton_method_run (fun x => x - 1) (fun _ => 0) 0 3 0 0 1
      = (.noneVal, .smallDerivative, 1) ∧ (1 : Nat) ≠ 3 ∧
      ¬(|(0 : ℚ) - 1| < 0)) :=
  ⟨⟨by norm_num [newton_method_run, newtonLoop], by decide⟩,
   ⟨by norm_num [newton_method_run, newtonLoop], by decide, by norm_num⟩⟩

/-- Counterexample to claim C5 as stated: two `newton_method_with_plot` calls
    with different termination outcomes (a slope-guard trip versus
    convergence) return identical values `([0, 1], [-1, 0])`: the returned
    value does not distinguish the outcomes. -/
theorem outcome_shape_collision_cex :
    newton_method_with_plot (fun x => x - 1) (fun x => 1 - x) 0 2 0 0
        ((1 : ℚ)/100)
      = newton_method_with_plot (fun x => x - 1) (fun _ => 1) 0 2 0
        ((1 : ℚ)/2) ((1 : ℚ)/100) ∧
    (newton_plot_core (fun x => x - 1) (fun x => 1 - x) 0 2 0 0
        ((1 : ℚ)/100) 0).1 = .smallDerivative ∧
    (newton_plot_core (fun x => x - 1) (fun _ => 1) 0 2 0 ((1 : ℚ)/2)
        ((1 : ℚ)/100) 0).1 = .converged (-1) 0 ∧
    NewtonOutcome.smallDerivative ≠ NewtonOutcome.converged (-1) 0 := by
  refine ⟨?_, ?_, ?_, by decide⟩ <;>
    norm_num [newton_method_with_plot, newton_plot_core, newtonPlotLoop]

/-- Counterexample to claim C6 as stated: with iteration cap `M = 0` the
    bisection precondition holds (`sign (f (-1)) ≠ sign (f 1)` for
    `f = fun x => x`) yet `bisect_method_with_plot` returns empty sequences:
    no midpoint is evaluated. -/
theorem midpoint_nonempty_cex :
    bisect_method_with_plot (-1) 1 0 ((1 : ℚ)/2) ((1 : ℚ)/2) (fun x => x)
      = .seqs [] [] ∧
    sign ((fun x => x) (-1 : ℚ)) ≠ sign ((fun x => x) (1 : ℚ)) :=
  ⟨by decide, by decide⟩

end RootFind

namespace RootFind

theorem bisectPlotLoop_bracket (f : ℚ → ℚ) (err1 epsilon : ℚ) :
    ∀ (n : Nat) (a b fa fb e : ℚ) (s : BisectPlotState),
      sign (f a) ≠ sign (f b) → e = b - a →
      (∀ q ∈ s.intervals, sign (f q.1) ≠ sign (f q.2)) →
      s.x_vals = s.intervals.map (fun q => q.1 + (q.2 - q.1) / 2) →
      (∀ q ∈ (bisectPlotLoop f err1 epsilon n a b fa fb e s).2.intervals,
          sign (f q.1) ≠ sign (f q.2)) ∧
      (bisectPlotLoop f err1 epsilon n a b fa fb e s).2.x_vals
        = (bisectPlotLoop f err1 epsilon n a b fa fb e s).2.intervals.map
            (fun q => q.1 + (q.2 - q.1) / 2) := by
  intro n
  induction n with
  | zero => intro a b fa fb e s hab he hinv hmap; exact ⟨hinv, hmap⟩
  | succ n ih =>
    intro a b fa fb e s hab he hinv hmap
    simp only [bisectPlotLoop]
    split_ifs with h1 h2
    · constructor
      · intro q hq
        rcases List.mem_append.1 hq with h | h
        · exact hinv q h
        · rcases List.mem_singleton.1 h with rfl
          exact hab
      · subst he
        simp [hmap]
    · have hinv1 : ∀ q ∈ s.intervals ++ [(a, b)],
          sign (f q.1) ≠ sign (f q.2) := by
        intro q hq
        rcases List.mem_append.1 hq with h | h
        · exact hinv q h
        · rcases List.mem_singleton.1 h with rfl
          exact hab
      have hmap1 : s.x_vals ++ [a + e / 2]
          = (s.intervals ++ [(a, b)]).map (fun q => q.1 + (q.2 - q.1) / 2) := by
        subst he
        simp [hmap]
      exact ih a (a + e / 2) fa (f (a + e / 2)) (e / 2)
        ⟨s.x_vals ++ [a + e / 2], s.fx_vals ++ [f (a + e / 2)],
         s.intervals ++ [(a, b)], s.passes + 1, s.prints + 1⟩
        (Ne.symm h2) (by ring) hinv1 hmap1
    · have hc : sign (f (a + e / 2)) = sign (f a) := not_ne_iff.1 h2
      have hinv1 : ∀ q ∈ s.intervals ++ [(a, b)],
          sign (f q.1) ≠ sign (f q.2) := by
        intro q hq
        rcases List.mem_append.1 hq with h | h
        · exact hinv q h
        · rcases List.mem_singleton.1 h with rfl
          exact hab
      have hmap1 : s.x_vals ++ [a + e / 2]
          = (s.intervals ++ [(a, b)]).map (fun q => q.1 + (q.2 - q.1) / 2) := by
        subst he
        simp [hmap]
      exact ih (a + e / 2) b (f (a + e / 2)) fb (e / 2)
        ⟨s.x_vals ++ [a + e / 2], s.fx_vals ++ [f (a + e / 2)],
         s.intervals ++ [(a, b)], s.passes + 1, s.prints + 1⟩
        (fun hcb => hab (by rw [← hc]; exact hcb)) (by subst he; ring)
        hinv1 hmap1

/-- Claim C2: when `sign (f a) ≠ sign (f b)` at entry, a
    `bisect_method_with_plot` run keeps the bracket invariant at every
    iteration: every recorded bracket `(a_i, b_i)` active when its midpoint
    is computed satisfies `sign (f a_i) ≠ sign (f b_i)`, every recorded
    midpoint is the midpoint of its bracket, and the returned sequence of
    root estimates is exactly this midpoint sequence. -/
theorem bisection_bracket_invariant (a b : ℚ) (M : Nat) (err1 epsilon : ℚ)
    (f : ℚ → ℚ) (p : Nat) (h : sign (f a) ≠ sign (f b)) :
    (∀ q ∈ (bisect_plot_core a b M err1 epsilon f p).2.intervals,
        sign (f q.1) ≠ sign (f q.2)) ∧
    (bisect_plot_core a b M err1 epsilon f p).2.x_vals
      = (bisect_plot_core a b M err1 epsilon f p).2.intervals.map
          (fun q => q.1 + (q.2 - q.1) / 2) ∧
    bisect_method_with_plot a b M err1 epsilon f
      = .seqs (bisect_plot_core a b M err1 epsilon f 0).2.x_vals
          (bisect_plot_core a b M err1 epsilon f 0).2.fx_vals := by
  have main := bisectPlotLoop_bracket f err1 epsilon M a b (f a) (f b) (b - a)
    { x_vals := [], fx_vals := [], intervals := [], passes := 0,
      prints := p + 1 }
    h rfl (by intro q hq; simp at hq) (by simp)
  exact ⟨main.1, main.2, by simp [bisect_method_with_plot, h]⟩

theorem bisection_bracket_invariant_witness :
    sign ((fun x => x) (-1 : ℚ)) ≠ sign ((fun x => x) (1 : ℚ)) ∧
    ((∀ q ∈ (bisect_plot_core (-1) 1 3 ((1 : ℚ)/2) ((1 : ℚ)/2)
          (fun x => x) 0).2.intervals,
        sign ((fun x => x) q.1) ≠ sign ((fun x => x) q.2)) ∧
     (bisect_plot_core (-1) 1 3 ((1 : ℚ)/2) ((1 : ℚ)/2)
          (fun x => x) 0).2.x_vals
       = (bisect_plot_core (-1) 1 3 ((1 : ℚ)/2) ((1 : ℚ)/2)
            (fun x => x) 0).2.intervals.map (fun q => q.1 + (q.2 - q.1) / 2) ∧
     bisect_method_with_plot (-1) 1 3 ((1 : ℚ)/2) ((1 : ℚ)/2) (fun x => x)
       = .seqs (bisect_plot_core (-1) 1 3 ((1 : ℚ)/2) ((1 : ℚ)/2)
            (fun x => x) 0).2.x_vals
          (bisect_plot_core (-1) 1 3 ((1 : ℚ)/2) ((1 : ℚ)/2)
            (fun x => x) 0).2.fx_vals) :=
  ⟨by decide,
   bisection_bracket_invariant (-1) 1 3 ((1 : ℚ)/2) ((1 : ℚ)/2) (fun x => x) 0
     (by decide)⟩

theorem bisectPlotLoop_ne_nil (f : ℚ → ℚ) (err1 epsilon : ℚ) :
    ∀ (n : Nat) (a b fa fb e : ℚ) (s : BisectPlotState),
      s.x_vals ≠ [] → s.fx_vals ≠ [] →
      (bisectPlotLoop f err1 epsilon n a b fa fb e s).2.x_vals ≠ [] ∧
      (bisectPlotLoop f err1 epsilon n a b fa fb e s).2.fx_vals ≠ [] := by
  intro n
  induction n with
  | zero => intro a b fa fb e s hx hf; exact ⟨hx, hf⟩
  | succ n ih =>
    intro a b fa fb e s hx hf
    simp only [bisectPlotLoop]
    split_ifs with h1 h2
    · constructor <;> simp
    · exact ih a (a + e / 2) fa (f (a + e / 2)) (e / 2) _ (by simp) (by simp)
    · exact ih (a + e / 2) b (f (a + e / 2)) fb (e / 2) _ (by simp) (by simp)

theorem bisect_plot_core_ne_nil (a b : ℚ) (m : Nat) (err1 epsilon : ℚ)
    (f : ℚ → ℚ) (p : Nat) :
    (bisect_plot_core a b (m + 1) err1 epsilon f p).2.x_vals ≠ [] ∧
    (bisect_plot_core a b (m + 1) err1 epsilon f p).2.fx_vals ≠ [] := by
  simp only [bisect_plot_core, bisectPlotLoop]
  split_ifs with h1 h2
  · constructor <;> simp
  · exact bisectPlotLoop_ne_nil f err1 epsilon m _ _ _ _ _ _ (by simp) (by simp)
  · exact bisectPlotLoop_ne_nil f err1 epsilon m _ _ _ _ _ _ (by simp) (by simp)

/-- Claim C6 (amended): when `sign (f a) ≠ sign (f b)` at entry — including
    inputs where `|f a|` is already below the value tolerance — and the
    iteration cap `M` allows at least one pass (`1 ≤ M`),
    `bisect_method_with_plot` evaluates at least one midpoint: there is no
    pre-loop short-circuit on the endpoint values, and the returned iterate
    sequences are non-empty.  (With `M = 0` the loop body never runs and the
    returned sequences are empty, so a cap bound is required.) -/
theorem midpoint_nonempty_when_cap_positive (a b : ℚ) (M : Nat)
    (err1 epsilon : ℚ) (f : ℚ → ℚ) (hM : 1 ≤ M)
    (h : sign (f a) ≠ sign (f b)) :
    ∃ xs ys, bisect_method_with_plot a b M err1 epsilon f = .seqs xs ys ∧
      xs ≠ [] ∧ ys ≠ [] := by
  obtain ⟨m, rfl⟩ : ∃ m, M = m + 1 :=
    ⟨M - 1, (Nat.succ_pred_eq_of_pos hM).symm⟩
  refine ⟨(bisect_plot_core a b (m + 1) err1 epsilon f 0).2.x_vals,
          (bisect_plot_core a b (m + 1) err1 epsilon f 0).2.fx_vals,
          by simp [bisect_method_with_plot, h],
          (bisect_plot_core_ne_nil a b m err1 epsilon f 0).1,
          (bisect_plot_core_ne_nil a b m err1 epsilon f 0).2⟩

theorem midpoint_nonempty_when_cap_positive_witness :
    (1 ≤ 1) ∧
    sign ((fun x => x) (-(1 : ℚ)/10^13)) ≠ sign ((fun x => x) (1 : ℚ)) ∧
    |(fun x => x) (-(1 : ℚ)/10^13)| < (1 : ℚ)/10^12 ∧
    (∃ xs ys,
      bisect_method_with_plot (-(1 : ℚ)/10^13) 1 1 ((1 : ℚ)/10^12)
          ((1 : ℚ)/10^12) (fun x => x) = .seqs xs ys ∧
      xs ≠ [] ∧ ys ≠ []) :=
  ⟨le_refl 1, by norm_num [sign],
   by
    show |(-(1 : ℚ)/10^13)| < (1 : ℚ)/10^12
    rw [abs_of_neg (by norm_num : (-(1 : ℚ)/10^13) < 0)]
    norm_num,
   midpoint_nonempty_when_cap_positive (-(1 : ℚ)/10^13) 1 1 ((1 : ℚ)/10^12)
     ((1 : ℚ)/10^12) (fun x => x) (le_refl 1) (by norm_num [sign])⟩

/-- Claim C7: `bisect_method_with_plot` on `f2 x = x ^ 2 - 1` with bracket
    `a = 0`, `b = 2`, tolerances `1e-12`, and any iteration cap of at least
    50 converges: it returns the sequences `([1], [0])` — the root estimate
    is exactly `1`, `|f2 1| < 1e-12`, and only one iteration (at most 50) is
    used. -/
theorem bisection_f2_converges (M : Nat) (hM : 50 ≤ M) :
    bisect_method_with_plot 0 2 M ((1 : ℚ)/10^12) ((1 : ℚ)/10^12) f2
      = .seqs [1] [0] ∧
    f2 1 = 0 ∧ |f2 1| < (1 : ℚ)/10^12 ∧ ([(1 : ℚ)] : List ℚ).length ≤ 50 := by
  obtain ⟨m, rfl⟩ : ∃ m, M = m + 1 :=
    ⟨M - 1, (Nat.succ_pred_eq_of_pos (le_trans (by norm_num) hM)).symm⟩
  refine ⟨?_, by norm_num [f2], by norm_num [f2], by simp⟩
  norm_num [bisect_method_with_plot, bisect_plot_core, bisectPlotLoop, f2,
    sign]

theorem bisection_f2_converges_witness :
    (50 ≤ 50) ∧
    (bisect_method_with_plot 0 2 50 ((1 : ℚ)/10^12) ((1 : ℚ)/10^12) f2
        = .seqs [1] [0] ∧
     f2 1 = 0 ∧ |f2 1| < (1 : ℚ)/10^12 ∧
     ([(1 : ℚ)] : List ℚ).length ≤ 50) :=
  ⟨le_refl 50, bisection_f2_converges 50 (le_refl 50)⟩

end RootFind

namespace RootFind

theorem bisectLoop_passes (f : ℚ → ℚ) (err1 epsilon : ℚ) :
    ∀ (n : Nat) (a b fa fb e : ℚ) (k : Nat),
      (bisectLoop f err1 epsilon n a b fa fb e k).2.2 ≤ k + n ∧
      ((bisectLoop f err1 epsilon n a b fa fb e k).1 = .fellThrough →
        (bisectLoop f err1 epsilon n a b fa fb e k).2.2 = k + n) ∧
      (∀ c fc,
        (bisectLoop f err1 epsilon n a b fa fb e k).1 = .rootFound c fc →
        ∃ e2, (bisectLoop f err1 epsilon n a b fa fb e k).2.1
            = .converged e2 fc ∧ (|e2| < err1 ∨ |fc| < epsilon)) := by
  intro n
  induction n with
  | zero =>
    intro a b fa fb e k
    refine ⟨?_, ?_, ?_⟩ <;> simp [bisectLoop]
  | succ n ih =>
    intro a b fa fb e k
    simp only [bisectLoop]
    split_ifs with h1 h2
    · refine ⟨by simp, ?_, ?_⟩
      · intro h; simp at h
      · intro c fc h
        simp at h
        rcases h with ⟨hc, hfc⟩
        refine ⟨e / 2, ?_, hfc ▸ h1⟩
        simp [hfc]
    · obtain ⟨hle, hex, hroot⟩ := ih a (a + e / 2) fa (f (a + e / 2)) (e / 2)
        (k + 1)
      exact ⟨by omega, fun h => by have := hex h; omega, hroot⟩
    · obtain ⟨hle, hex, hroot⟩ := ih (a + e / 2) b (a + e / 2) fb (e / 2)
        (k + 1)
      exact ⟨by omega, fun h => by have := hex h; omega, hroot⟩

theorem newtonLoop_passes (f fprime : ℚ → ℚ) (err1 err2 epsilon : ℚ) :
    ∀ (n : Nat) (x fx : ℚ) (k : Nat),
      (newtonLoop f fprime err1 err2 epsilon n x fx k).2.2 ≤ k + n ∧
      ((newtonLoop f fprime err1 err2 epsilon n x fx k).2.1 = .exhausted →
        (newtonLoop f fprime err1 err2 epsilon n x fx k).2.2 = k + n) ∧
      (∀ d fx1,
        (newtonLoop f fprime err1 err2 epsilon n x fx k).2.1
          = .converged d fx1 → |d| < err1 ∨ |fx1| < err2) := by
  intro n
  induction n with
  | zero =>
    intro x fx k
    refine ⟨?_, ?_, ?_⟩ <;> simp [newtonLoop]
  | succ n ih =>
    intro x fx k
    simp only [newtonLoop]
    split_ifs with h1 h2
    · refine ⟨by simp, ?_, ?_⟩
      · intro h; simp at h
      · intro d fx1 h; simp at h
    · refine ⟨by simp, ?_, ?_⟩
      · intro h; simp at h
      · intro d fx1 h
        simp at h
        rcases h with ⟨hd, hfx⟩
        exact hd ▸ hfx ▸ h2
    · obtain ⟨hle, hex, hconv⟩ := ih (x - fx / fprime x)
        (f (x - fx / fprime x)) (k + 1)
      exact ⟨by omega, fun h => by have := hex h; omega, hconv⟩

theorem secantLoop_passes (f : ℚ → ℚ) (err1 err2 epsilon : ℚ) :
    ∀ (n : Nat) (x0 x1 fx0 fx1 : ℚ) (k : Nat),
      (secantLoop f err1 err2 epsilon n x0 x1 fx0 fx1 k).2.2 ≤ k + n ∧
      ((secantLoop f err1 err2 epsilon n x0 x1 fx0 fx1 k).2.1 = .exhausted →
        (secantLoop f err1 err2 epsilon n x0 x1 fx0 fx1 k).2.2 = k + n) ∧
      (∀ d fx2,
        (secantLoop f err1 err2 epsilon n x0 x1 fx0 fx1 k).2.1
          = .converged d fx2 → |d| < err1 ∨ |fx2| < err2) := by
  intro n
  induction n with
  | zero =>
    intro x0 x1 fx0 fx1 k
    refine ⟨?_, ?_, ?_⟩ <;> simp [secantLoop]
  | succ n ih =>
    intro x0 x1 fx0 fx1 k
    simp only [secantLoop]
    split_ifs with h1 h2
    · refine ⟨by simp, ?_, ?_⟩
      · intro h; simp at h
      · intro d fx2 h; simp at h
    · refine ⟨by simp, ?_, ?_⟩
      · intro h; simp at h
      · intro d fx2 h
        simp at h
        rcases h with ⟨hd, hfx⟩
        exact hd ▸ hfx ▸ h2
    · obtain ⟨hle, hex, hconv⟩ := ih x1 (x1 - fx1 * (x1 - x0) / (fx1 - fx0))
        fx1 (f (x1 - fx1 * (x1 - x0) / (fx1 - fx0))) (k + 1)
      exact ⟨by omega, fun h => by have := hex h; omega, hconv⟩

theorem bisectPlotLoop_passes (f : ℚ → ℚ) (err1 epsilon : ℚ) :
    ∀ (n : Nat) (a b fa fb e : ℚ) (s : BisectPlotState) (k : Nat),
      s.passes = k →
      (bisectPlotLoop f err1 epsilon n a b fa fb e s).2.passes ≤ k + n ∧
      ((bisectPlotLoop f err1 epsilon n a b fa fb e s).1 = .exhausted →
        (bisectPlotLoop f err1 epsilon n a b fa fb e s).2.passes = k + n) ∧
      (∀ e2 fc,
        (bisectPlotLoop f err1 epsilon n a b fa fb e s).1 = .converged e2 fc →
        |e2| < err1 ∨ |fc| < epsilon) := by
  intro n
  induction n with
  | zero =>
    intro a b fa fb e s k hk
    refine ⟨?_, ?_, ?_⟩ <;> simp [bisectPlotLoop, hk]
  | succ n ih =>
    intro a b fa fb e s k hk
    simp only [bisectPlotLoop]
    split_ifs with h1 h2
    · refine ⟨by simp [hk], ?_, ?_⟩
      · intro h; simp at h
      · intro e2 fc h
        simp at h
        rcases h with ⟨he2, hfc⟩
        exact he2 ▸ hfc ▸ h1
    · obtain ⟨hle, hex, hconv⟩ := ih a (a + e / 2) fa (f (a + e / 2)) (e / 2)
        ⟨s.x_vals ++ [a + e / 2], s.fx_vals ++ [f (a + e / 2)],
         s.intervals ++ [(a, b)], s.passes + 1, s.prints + 1⟩ (k + 1)
        (by simp [hk])
      exact ⟨by omega, fun h => by have := hex h; omega, hconv⟩
    · obtain ⟨hle, hex, hconv⟩ := ih (a + e / 2) b (f (a + e / 2)) fb (e / 2)
        ⟨s.x_vals ++ [a + e / 2], s.fx_vals ++ [f (a + e / 2)],
         s.intervals ++ [(a, b)], s.passes + 1, s.prints + 1⟩ (k + 1)
        (by simp [hk])
      exact ⟨by omega, fun h => by have := hex h; omega, hconv⟩

theorem newtonPlotLoop_passes (f fprime : ℚ → ℚ) (err1 err2 epsilon : ℚ) :
    ∀ (n : Nat) (x fx : ℚ) (s : NewtonPlotState) (k : Nat),
      s.passes = k →
      (newtonPlotLoop f fprime err1 err2 epsilon n x fx s).2.passes ≤ k + n ∧
      ((newtonPlotLoop f fprime err1 err2 epsilon n x fx s).1 = .exhausted →
        (newtonPlotLoop f fprime err1 err2 epsilon n x fx s).2.passes
          = k + n) ∧
      (∀ d fx1,
        (newtonPlotLoop f fprime err1 err2 epsilon n x fx s).1
          = .converged d fx1 → |d| < err1 ∨ |fx1| < err2) := by
  intro n
  induction n with
  | zero =>
    intro x fx s k hk
    refine ⟨?_, ?_, ?_⟩ <;> simp [newtonPlotLoop, hk]
  | succ n ih =>
    intro x fx s k hk
    simp only [newtonPlotLoop]
    split_ifs with h1 h2
    · refine ⟨by simp [hk], ?_, ?_⟩
      · intro h; simp at h
      · intro d fx1 h; simp at h
    · refine ⟨by simp [hk], ?_, ?_⟩
      · intro h; simp at h
      · intro d fx1 h
        simp at h
        rcases h with ⟨hd, hfx⟩
        exact hd ▸ hfx ▸ h2
    · obtain ⟨hle, hex, hconv⟩ := ih (x - fx / fprime x)
        (f (x - fx / fprime x))
        ⟨s.x_vals ++ [x - fx / fprime x], s.fx_vals ++ [f (x - fx / fprime x)],
         s.slopes ++ [fprime x], s.passes + 1, s.prints + 1⟩ (k + 1)
        (by simp [hk])
      exact ⟨by omega, fun h => by have := hex h; omega, hconv⟩

theorem secantPlotLoop_passes (f : ℚ → ℚ) (err1 err2 epsilon : ℚ) :
    ∀ (n : Nat) (x0 x1 fx0 fx1 : ℚ) (s : SecantPlotState) (k : Nat),
      s.passes = k →
      (secantPlotLoop f err1 err2 epsilon n x0 x1 fx0 fx1 s).2.passes
        ≤ k + n ∧
      ((secantPlotLoop f err1 err2 epsilon n x0 x1 fx0 fx1 s).1 = .exhausted →
        (secantPlotLoop f err1 err2 epsilon n x0 x1 fx0 fx1 s).2.passes
          = k + n) ∧
      (∀ d fx2,
        (secantPlotLoop f err1 err2 epsilon n x0 x1 fx0 fx1 s).1
          = .converged d fx2 → |d| < err1 ∨ |fx2| < err2) := by
  intro n
  induction n with
  | zero =>
    intro x0 x1 fx0 fx1 s k hk
    refine ⟨?_, ?_, ?_⟩ <;> simp [secantPlotLoop, hk]
  | succ n ih =>
    intro x0 x1 fx0 fx1 s k hk
    simp only [secantPlotLoop]
    split_ifs with h1 h2
    · refine ⟨by simp [hk], ?_, ?_⟩
      · intro h; simp at h
      · intro d fx2 h; simp at h
    · refine ⟨by simp [hk], ?_, ?_⟩
      · intro h; simp at h
      · intro d fx2 h
        simp at h
        rcases h with ⟨hd, hfx⟩
        exact hd ▸ hfx ▸ h2
    · obtain ⟨hle, hex, hconv⟩ := ih x1
        (x1 - fx1 * (x1 - x0) / (fx1 - fx0)) fx1
        (f (x1 - fx1 * (x1 - x0) / (fx1 - fx0)))
        ⟨s.x_vals ++ [x1 - fx1 * (x1 - x0) / (fx1 - fx0)],
         s.fx_vals ++ [f (x1 - fx1 * (x1 - x0) / (fx1 - fx0))],
         s.slopes ++ [fx1 - fx0], s.passes + 1, s.prints + 1⟩ (k + 1)
        (by simp [hk])
      exact ⟨by omega, fun h => by have := hex h; omega, hconv⟩

end RootFind

namespace RootFind

/-- Claim C4 (amended): every engine loop performs at most its pass cap many
    passes, and it performs exactly the cap when it stops by exhaustion; on a
    convergence stop the stopping pass's actual step and value (for
    bisection: its actual half-width `e2` and midpoint value `fc`, carried by
    the ghost outcome) satisfied `|step| < step_tol ∨ |value| < value_tol`;
    a Newton/secant run may instead stop early on its slope guard, where
    none of the claim's disjuncts need hold (second counterexample run).
    The cap is `max_iter` for the `*_with_plot` variants
    (`range(1, max_iter + 1)`) but `max_iter - 1` for the non-plotting
    variants (`range(1, max_iter)`), not `max_iter` as the claim states. -/
theorem iteration_count_bounds :
    (∀ (f fprime : ℚ → ℚ) (x0 : ℚ) (nmax : Nat) (err1 err2 epsilon : ℚ)
       (p : Nat),
      (newton_plot_core f fprime x0 nmax err1 err2 epsilon p).2.passes
        ≤ nmax ∧
      (((newton_plot_core f fprime x0 nmax err1 err2 epsilon p).1
          = .exhausted ∧
        (newton_plot_core f fprime x0 nmax err1 err2 epsilon p).2.passes
          = nmax) ∨
       (∃ d fx,
         (newton_plot_core f fprime x0 nmax err1 err2 epsilon p).1
            = .converged d fx ∧ (|d| < err1 ∨ |fx| < err2)) ∨
       (newton_plot_core f fprime x0 nmax err1 err2 epsilon p).1
          = .smallDerivative)) ∧
    (∀ (f : ℚ → ℚ) (x0 x1 : ℚ) (nmax : Nat) (err1 err2 epsilon : ℚ)
       (p : Nat),
      (secant_plot_core f x0 x1 nmax err1 err2 epsilon p).2.passes ≤ nmax ∧
      (((secant_plot_core f x0 x1 nmax err1 err2 epsilon p).1 = .exhausted ∧
        (secant_plot_core f x0 x1 nmax err1 err2 epsilon p).2.passes
          = nmax) ∨
       (∃ d fx,
         (secant_plot_core f x0 x1 nmax err1 err2 epsilon p).1
            = .converged d fx ∧ (|d| < err1 ∨ |fx| < err2)) ∨
       (secant_plot_core f x0 x1 nmax err1 err2 epsilon p).1 = .smallDiff)) ∧
    (∀ (a b : ℚ) (M : Nat) (err1 epsilon : ℚ) (f : ℚ → ℚ) (p : Nat),
      (bisect_plot_core a b M err1 epsilon f p).2.passes ≤ M ∧
      (((bisect_plot_core a b M err1 epsilon f p).1 = .exhausted ∧
        (bisect_plot_core a b M err1 epsilon f p).2.passes = M) ∨
       (∃ e2 fc,
         (bisect_plot_core a b M err1 epsilon f p).1 = .converged e2 fc ∧
         (|e2| < err1 ∨ |fc| < epsilon)))) ∧
    (∀ (f fprime : ℚ → ℚ) (x : ℚ) (nmax : Nat) (err1 err2 epsilon : ℚ),
      (newton_method_run f fprime x nmax err1 err2 epsilon).2.2
        ≤ nmax - 1 ∧
      (((newton_method_run f fprime x nmax err1 err2 epsilon).2.1
          = .exhausted ∧
        (newton_method_run f fprime x nmax err1 err2 epsilon).2.2
          = nmax - 1) ∨
       (∃ d fx,
         (newton_method_run f fprime x nmax err1 err2 epsilon).2.1
            = .converged d fx ∧ (|d| < err1 ∨ |fx| < err2)) ∨
       (newton_method_run f fprime x nmax err1 err2 epsilon).2.1
          = .smallDerivative)) ∧
    (∀ (f : ℚ → ℚ) (x0 x1 : ℚ) (nmax : Nat) (err1 err2 epsilon : ℚ),
      (secant_method_run f x0 x1 nmax err1 err2 epsilon).2.2 ≤ nmax - 1 ∧
      (((secant_method_run f x0 x1 nmax err1 err2 epsilon).2.1
          = .exhausted ∧
        (secant_method_run f x0 x1 nmax err1 err2 epsilon).2.2
          = nmax - 1) ∨
       (∃ d fx,
         (secant_method_run f x0 x1 nmax err1 err2 epsilon).2.1
            = .converged d fx ∧ (|d| < err1 ∨ |fx| < err2)) ∨
       (secant_method_run f x0 x1 nmax err1 err2 epsilon).2.1
          = .smallDiff)) ∧
    (∀ (a b : ℚ) (M : Nat) (err1 epsilon : ℚ) (f : ℚ → ℚ),
      (bisect_method_run a b M err1 epsilon f).2.2 ≤ M - 1 ∧
      ((bisect_method_run a b M err1 epsilon f).1 = .sameSign ∨
       ((bisect_method_run a b M err1 epsilon f).1 = .fellThrough ∧
        (bisect_method_run a b M err1 epsilon f).2.2 = M - 1) ∨
       (∃ c fc e2,
         (bisect_method_run a b M err1 epsilon f).1 = .rootFound c fc ∧
         (bisect_method_run a b M err1 epsilon f).2.1 = .converged e2 fc ∧
         (|e2| < err1 ∨ |fc| < epsilon)))) := by
  refine ⟨?_, ?_, ?_, ?_, ?_, ?_⟩
  · intro f fprime x0 nmax err1 err2 epsilon p
    obtain ⟨hle, hex, hconv⟩ := newtonPlotLoop_passes f fprime err1 err2
      epsilon nmax x0 (f x0) ⟨[x0], [f x0], [], 0, p + 2⟩ 0 rfl
    refine ⟨by simpa using hle, ?_⟩
    rcases hout : (newton_plot_core f fprime x0 nmax err1 err2 epsilon p).1
      with _ | ⟨d, fx⟩ | _
    · exact Or.inr (Or.inr rfl)
    · exact Or.inr (Or.inl ⟨d, fx, rfl, hconv d fx hout⟩)
    · exact Or.inl ⟨rfl, by simpa using hex hout⟩
  · intro f x0 x1 nmax err1 err2 epsilon p
    obtain ⟨hle, hex, hconv⟩ := secantPlotLoop_passes f err1 err2 epsilon
      nmax x0 x1 (f x0) (f x1) ⟨[x0, x1], [f x0, f x1], [], 0, p + 2⟩ 0 rfl
    refine ⟨by simpa using hle, ?_⟩
    rcases hout : (secant_plot_core f x0 x1 nmax err1 err2 epsilon p).1
      with _ | ⟨d, fx⟩ | _
    · exact Or.inr (Or.inr rfl)
    · exact Or.inr (Or.inl ⟨d, fx, rfl, hconv d fx hout⟩)
    · exact Or.inl ⟨rfl, by simpa using hex hout⟩
  · intro a b M err1 epsilon f p
    obtain ⟨hle, hex, hconv⟩ := bisectPlotLoop_passes f err1 epsilon M a b
      (f a) (f b) (b - a) ⟨[], [], [], 0, p + 1⟩ 0 rfl
    refine ⟨by simpa using hle, ?_⟩
    rcases hout : (bisect_plot_core a b M err1 epsilon f p).1
      with ⟨e2, fc⟩ | _
    · exact Or.inr ⟨e2, fc, rfl, hconv e2 fc hout⟩
    · exact Or.inl ⟨rfl, by simpa using hex hout⟩
  · intro f fprime x nmax err1 err2 epsilon
    obtain ⟨hle, hex, hconv⟩ := newtonLoop_passes f fprime err1 err2 epsilon
      (nmax - 1) x (f x) 0
    refine ⟨by simpa using hle, ?_⟩
    rcases hout : (newton_method_run f fprime x nmax err1 err2 epsilon).2.1
      with _ | ⟨d, fx⟩ | _
    · exact Or.inr (Or.inr rfl)
    · exact Or.inr (Or.inl ⟨d, fx, rfl, hconv d fx hout⟩)
    · exact Or.inl ⟨rfl, by simpa using hex hout⟩
  · intro f x0 x1 nmax err1 err2 epsilon
    obtain ⟨hle, hex, hconv⟩ := secantLoop_passes f err1 err2 epsilon
      (nmax - 1) x0 x1 (f x0) (f x1) 0
    refine ⟨by simpa using hle, ?_⟩
    rcases hout : (secant_method_run f x0 x1 nmax err1 err2 epsilon).2.1
      with _ | ⟨d, fx⟩ | _
    · exact Or.inr (Or.inr rfl)
    · exact Or.inr (Or.inl ⟨d, fx, rfl, hconv d fx hout⟩)
    · exact Or.inl ⟨rfl, by simpa using hex hout⟩
  · intro a b M err1 epsilon f
    by_cases h : sign (f a) = sign (f b)
    · exact ⟨by simp [bisect_method_run, h],
        Or.inl (by simp [bisect_method_run, h])⟩
    · obtain ⟨hle, hex, hroot⟩ := bisectLoop_passes f err1 epsilon (M - 1)
        a b (f a) (f b) (b - a) 0
      have hrun : bisect_method_run a b M err1 epsilon f
          = bisectLoop f err1 epsilon (M - 1) a b (f a) (f b) (b - a) 0 := by
        simp [bisect_method_run, h]
      rw [hrun]
      refine ⟨by simpa using hle, ?_⟩
      rcases hout : (bisectLoop f err1 epsilon (M - 1) a b (f a) (f b)
          (b - a) 0).1 with _ | ⟨c, fc⟩ | _
      · exact Or.inl rfl
      · obtain ⟨e2, hco, htol⟩ := hroot c fc hout
        exact Or.inr (Or.inr ⟨c, fc, e2, rfl, hco, htol⟩)
      · exact Or.inr (Or.inl ⟨rfl, by simpa using hex hout⟩)

/-- Claim C5 (amended): the precondition failure of bisection is
    distinguishable from numeric results — `bisect_method_with_plot` returns
    the `"Same Sign"` sentinel exactly when `sign (f a) = sign (f b)`, and
    that sentinel differs from every sequence pair.  (Convergence,
    exhaustion, and a Newton/secant slope-guard trip all return a bare
    `(x_vals, fx_vals)` pair and are not distinguishable from the returned
    value alone.) -/
theorem same_sign_outcome_distinguishable (a b : ℚ) (M : Nat)
    (err1 epsilon : ℚ) (f : ℚ → ℚ) :
    (bisect_method_with_plot a b M err1 epsilon f = .sameSign
      ↔ sign (f a) = sign (f b)) ∧
    ∀ xs ys, PlotRes.sameSign ≠ PlotRes.seqs xs ys := by
  constructor
  · by_cases h : sign (f a) = sign (f b) <;>
      simp [bisect_method_with_plot, h]
  · intro xs ys h
    simp at h

theorem bisectPlotLoop_prints_indep (f : ℚ → ℚ) (err1 epsilon : ℚ) :
    ∀ (n : Nat) (a b fa fb e : ℚ) (s s' : BisectPlotState),
      s.x_vals = s'.x_vals → s.fx_vals = s'.fx_vals →
      s.intervals = s'.intervals → s.passes = s'.passes →
      (bisectPlotLoop f err1 epsilon n a b fa fb e s).1
        = (bisectPlotLoop f err1 epsilon n a b fa fb e s').1 ∧
      (bisectPlotLoop f err1 epsilon n a b fa fb e s).2.x_vals
        = (bisectPlotLoop f err1 epsilon n a b fa fb e s').2.x_vals ∧
      (bisectPlotLoop f err1 epsilon n a b fa fb e s).2.fx_vals
        = (bisectPlotLoop f err1 epsilon n a b fa fb e s').2.fx_vals ∧
      (bisectPlotLoop f err1 epsilon n a b fa fb e s).2.intervals
        = (bisectPlotLoop f err1 epsilon n a b fa fb e s').2.intervals ∧
      (bisectPlotLoop f err1 epsilon n a b fa fb e s).2.passes
        = (bisectPlotLoop f err1 epsilon n a b fa fb e s').2.passes := by
  intro n
  induction n with
  | zero =>
    intro a b fa fb e s s' h1 h2 h3 h4
    exact ⟨rfl, h1, h2, h3, h4⟩
  | succ n ih =>
    intro a b fa fb e s s' h1 h2 h3 h4
    simp only [bisectPlotLoop]
    split_ifs with hc1 hc2
    · exact ⟨rfl, by simp [h1], by simp [h2], by simp [h3], by simp [h4]⟩
    · exact ih a (a + e / 2) fa (f (a + e / 2)) (e / 2)
        ⟨s.x_vals ++ [a + e / 2], s.fx_vals ++ [f (a + e / 2)],
         s.intervals ++ [(a, b)], s.passes + 1, s.prints + 1⟩
        ⟨s'.x_vals ++ [a + e / 2], s'.fx_vals ++ [f (a + e / 2)],
         s'.intervals ++ [(a, b)], s'.passes + 1, s'.prints + 1⟩
        (by simp [h1]) (by simp [h2]) (by simp [h3]) (by simp [h4])
    · exact ih (a + e / 2) b (f (a + e / 2)) fb (e / 2)
        ⟨s.x_vals ++ [a + e / 2], s.fx_vals ++ [f (a + e / 2)],
         s.intervals ++ [(a, b)], s.passes + 1, s.prints + 1⟩
        ⟨s'.x_vals ++ [a + e / 2], s'.fx_vals ++ [f (a + e / 2)],
         s'.intervals ++ [(a, b)], s'.passes + 1, s'.prints + 1⟩
        (by simp [h1]) (by simp [h2]) (by simp [h3]) (by simp [h4])

theorem newtonPlotLoop_prints_indep (f fprime : ℚ → ℚ)
    (err1 err2 epsilon : ℚ) :
    ∀ (n : Nat) (x fx : ℚ) (s s' : NewtonPlotState),
      s.x_vals = s'.x_vals → s.fx_vals = s'.fx_vals → s.slopes = s'.slopes →
      s.passes = s'.passes →
      (newtonPlotLoop f fprime err1 err2 epsilon n x fx s).1
        = (newtonPlotLoop f fprime err1 err2 epsilon n x fx s').1 ∧
      (newtonPlotLoop f fprime err1 err2 epsilon n x fx s).2.x_vals
        = (newtonPlotLoop f fprime err1 err2 epsilon n x fx s').2.x_vals ∧
      (newtonPlotLoop f fprime err1 err2 epsilon n x fx s).2.fx_vals
        = (newtonPlotLoop f fprime err1 err2 epsilon n x fx s').2.fx_vals ∧
      (newtonPlotLoop f fprime err1 err2 epsilon n x fx s).2.slopes
        = (newtonPlotLoop f fprime err1 err2 epsilon n x fx s').2.slopes ∧
      (newtonPlotLoop f fprime err1 err2 epsilon n x fx s).2.passes
        = (newtonPlotLoop f fprime err1 err2 epsilon n x fx s').2.passes := by
  intro n
  induction n with
  | zero =>
    intro x fx s s' h1 h2 h3 h4
    exact ⟨rfl, h1, h2, h3, h4⟩
  | succ n ih =>
    intro x fx s s' h1 h2 h3 h4
    simp only [newtonPlotLoop]
    split_ifs with hc1 hc2
    · exact ⟨rfl, by simp [h1], by simp [h2], by simp [h3], by simp [h4]⟩
    · exact ⟨rfl, by simp [h1], by simp [h2], by simp [h3], by simp [h4]⟩
    · exact ih (x - fx / fprime x) (f (x - fx / fprime x))
        ⟨s.x_vals ++ [x - fx / fprime x],
         s.fx_vals ++ [f (x - fx / fprime x)],
         s.slopes ++ [fprime x], s.passes + 1, s.prints + 1⟩
        ⟨s'.x_vals ++ [x - fx / fprime x],
         s'.fx_vals ++ [f (x - fx / fprime x)],
         s'.slopes ++ [fprime x], s'.passes + 1, s'.prints + 1⟩
        (by simp [h1]) (by simp [h2]) (by simp [h3]) (by simp [h4])

theorem secantPlotLoop_prints_indep (f : ℚ → ℚ) (err1 err2 epsilon : ℚ) :
    ∀ (n : Nat) (x0 x1 fx0 fx1 : ℚ) (s s' : SecantPlotState),
      s.x_vals = s'.x_vals → s.fx_vals = s'.fx_vals → s.slopes = s'.slopes →
      s.passes = s'.passes →
      (secantPlotLoop f err1 err2 epsilon n x0 x1 fx0 fx1 s).1
        = (secantPlotLoop f err1 err2 epsilon n x0 x1 fx0 fx1 s').1 ∧
      (secantPlotLoop f err1 err2 epsilon n x0 x1 fx0 fx1 s).2.x_vals
        = (secantPlotLoop f err1 err2 epsilon n x0 x1 fx0 fx1 s').2.x_vals ∧
      (secantPlotLoop f err1 err2 epsilon n x0 x1 fx0 fx1 s).2.fx_vals
        = (secantPlotLoop f err1 err2 epsilon n x0 x1 fx0 fx1 s').2.fx_vals ∧
      (secantPlotLoop f err1 err2 epsilon n x0 x1 fx0 fx1 s).2.slopes
        = (secantPlotLoop f err1 err2 epsilon n x0 x1 fx0 fx1 s').2.slopes ∧
      (secantPlotLoop f err1 err2 epsilon n x0 x1 fx0 fx1 s).2.passes
        = (secantPlotLoop f err1 err2 epsilon n x0 x1 fx0 fx1 s').2.passes := by
  intro n
  induction n with
  | zero =>
    intro x0 x1 fx0 fx1 s s' h1 h2 h3 h4
    exact ⟨rfl, h1, h2, h3, h4⟩
  | succ n ih =>
    intro x0 x1 fx0 fx1 s s' h1 h2 h3 h4
    simp only [secantPlotLoop]
    split_ifs with hc1 hc2
    · exact ⟨rfl, by simp [h1], by simp [h2], by simp [h3], by simp [h4]⟩
    · exact ⟨rfl, by simp [h1], by simp [h2], by simp [h3], by simp [h4]⟩
    · exact ih x1 (x1 - fx1 * (x1 - x0) / (fx1 - fx0)) fx1
        (f (x1 - fx1 * (x1 - x0) / (fx1 - fx0)))
        ⟨s.x_vals ++ [x1 - fx1 * (x1 - x0) / (fx1 - fx0)],
         s.fx_vals ++ [f (x1 - fx1 * (x1 - x0) / (fx1 - fx0))],
         s.slopes ++ [fx1 - fx0], s.passes + 1, s.prints + 1⟩
        ⟨s'.x_vals ++ [x1 - fx1 * (x1 - x0) / (fx1 - fx0)],
         s'.fx_vals ++ [f (x1 - fx1 * (x1 - x0) / (fx1 - fx0))],
         s'.slopes ++ [fx1 - fx0], s'.passes + 1, s'.prints + 1⟩
        (by simp [h1]) (by simp [h2]) (by simp [h3]) (by simp [h4])

/-- Claim C8: every engine is deterministic and stateless across calls.  The
    only cross-call state in the source is the stdout stream (modelled by the
    `prints` counter); for all three engines the outcome and every numeric
    component of the result are unchanged under any incoming stream state
    `p` versus `q`, so a repeated call — whose incoming stream is the first
    call's outgoing stream — returns bit-identical sequences. -/
theorem engines_stateless :
    (∀ (a b : ℚ) (M : Nat) (err1 epsilon : ℚ) (f : ℚ → ℚ) (p q : Nat),
      (bisect_plot_core a b M err1 epsilon f p).1
        = (bisect_plot_core a b M err1 epsilon f q).1 ∧
      (bisect_plot_core a b M err1 epsilon f p).2.x_vals
        = (bisect_plot_core a b M err1 epsilon f q).2.x_vals ∧
      (bisect_plot_core a b M err1 epsilon f p).2.fx_vals
        = (bisect_plot_core a b M err1 epsilon f q).2.fx_vals ∧
      (bisect_plot_core a b M err1 epsilon f p).2.intervals
        = (bisect_plot_core a b M err1 epsilon f q).2.intervals ∧
      (bisect_plot_core a b M err1 epsilon f p).2.passes
        = (bisect_plot_core a b M err1 epsilon f q).2.passes) ∧
    (∀ (f fprime : ℚ → ℚ) (x0 : ℚ) (nmax : Nat) (err1 err2 epsilon : ℚ)
       (p q : Nat),
      (newton_plot_core f fprime x0 nmax err1 err2 epsilon p).1
        = (newton_plot_core f fprime x0 nmax err1 err2 epsilon q).1 ∧
      (newton_plot_core f fprime x0 nmax err1 err2 epsilon p).2.x_vals
        = (newton_plot_core f fprime x0 nmax err1 err2 epsilon q).2.x_vals ∧
      (newton_plot_core f fprime x0 nmax err1 err2 epsilon p).2.fx_vals
        = (newton_plot_core f fprime x0 nmax err1 err2 epsilon q).2.fx_vals ∧
      (newton_plot_core f fprime x0 nmax err1 err2 epsilon p).2.slopes
        = (newton_plot_core f fprime x0 nmax err1 err2 epsilon q).2.slopes ∧
      (newton_plot_core f fprime x0 nmax err1 err2 epsilon p).2.passes
        = (newton_plot_core f fprime x0 nmax err1 err2 epsilon q).2.passes) ∧
    (∀ (f : ℚ → ℚ) (x0 x1 : ℚ) (nmax : Nat) (err1 err2 epsilon : ℚ)
       (p q : Nat),
      (secant_plot_core f x0 x1 nmax err1 err2 epsilon p).1
        = (secant_plot_core f x0 x1 nmax err1 err2 epsilon q).1 ∧
      (secant_plot_core f x0 x1 nmax err1 err2 epsilon p).2.x_vals
        = (secant_plot_core f x0 x1 nmax err1 err2 epsilon q).2.x_vals ∧
      (secant_plot_core f x0 x1 nmax err1 err2 epsilon p).2.fx_vals
        = (secant_plot_core f x0 x1 nmax err1 err2 epsilon q).2.fx_vals ∧
      (secant_plot_core f x0 x1 nmax err1 err2 epsilon p).2.slopes
        = (secant_plot_core f x0 x1 nmax err1 err2 epsilon q).2.slopes ∧
      (secant_plot_core f x0 x1 nmax err1 err2 epsilon p).2.passes
        = (secant_plot_core f x0 x1 nmax err1 err2 epsilon q).2.passes) := by
  refine ⟨?_, ?_, ?_⟩
  · intro a b M err1 epsilon f p q
    exact bisectPlotLoop_prints_indep f err1 epsilon M a b (f a) (f b)
      (b - a) ⟨[], [], [], 0, p + 1⟩ ⟨[], [], [], 0, q + 1⟩ rfl rfl rfl rfl
  · intro f fprime x0 nmax err1 err2 epsilon p q
    exact newtonPlotLoop_prints_indep f fprime err1 err2 epsilon nmax x0
      (f x0) ⟨[x0], [f x0], [], 0, p + 2⟩ ⟨[x0], [f x0], [], 0, q + 2⟩
      rfl rfl rfl rfl
  · intro f x0 x1 nmax err1 err2 epsilon p q
    exact secantPlotLoop_prints_indep f err1 err2 epsilon nmax x0 x1 (f x0)
      (f x1) ⟨[x0, x1], [f x0, f x1], [], 0, p + 2⟩
      ⟨[x0, x1], [f x0, f x1], [], 0, q + 2⟩ rfl rfl rfl rfl

end RootFind

namespace RootFind

theorem bisectPlotLoop_map (f : ℚ → ℚ) (err1 epsilon : ℚ) :
    ∀ (n : Nat) (a b fa fb e : ℚ) (s : BisectPlotState),
      s.fx_vals = s.x_vals.map f →
      (bisectPlotLoop f err1 epsilon n a b fa fb e s).2.fx_vals
        = (bisectPlotLoop f err1 epsilon n a b fa fb e s).2.x_vals.map f := by
  intro n
  induction n with
  | zero => intro a b fa fb e s h; exact h
  | succ n ih =>
    intro a b fa fb e s h
    simp only [bisectPlotLoop]
    split_ifs with hc1 hc2
    · simp [h]
    · exact ih a (a + e / 2) fa (f (a + e / 2)) (e / 2)
        ⟨s.x_vals ++ [a + e / 2], s.fx_vals ++ [f (a + e / 2)],
         s.intervals ++ [(a, b)], s.passes + 1, s.prints + 1⟩ (by simp [h])
    · exact ih (a + e / 2) b (f (a + e / 2)) fb (e / 2)
        ⟨s.x_vals ++ [a + e / 2], s.fx_vals ++ [f (a + e / 2)],
         s.intervals ++ [(a, b)], s.passes + 1, s.prints + 1⟩ (by simp [h])

theorem newtonPlotLoop_map (f fprime : ℚ → ℚ) (err1 err2 epsilon : ℚ) :
    ∀ (n : Nat) (x fx : ℚ) (s : NewtonPlotState),
      s.fx_vals = s.x_vals.map f →
      (newtonPlotLoop f fprime err1 err2 epsilon n x fx s).2.fx_vals
        = (newtonPlotLoop f fprime err1 err2 epsilon n x fx s).2.x_vals.map
            f := by
  intro n
  induction n with
  | zero => intro x fx s h; exact h
  | succ n ih =>
    intro x fx s h
    simp only [newtonPlotLoop]
    split_ifs with hc1 hc2
    · simpa using h
    · simp [h]
    · exact ih (x - fx / fprime x) (f (x - fx / fprime x))
        ⟨s.x_vals ++ [x - fx / fprime x],
         s.fx_vals ++ [f (x - fx / fprime x)],
         s.slopes ++ [fprime x], s.passes + 1, s.prints + 1⟩ (by simp [h])

theorem secantPlotLoop_map (f : ℚ → ℚ) (err1 err2 epsilon : ℚ) :
    ∀ (n : Nat) (x0 x1 fx0 fx1 : ℚ) (s : SecantPlotState),
      s.fx_vals = s.x_vals.map f →
      (secantPlotLoop f err1 err2 epsilon n x0 x1 fx0 fx1 s).2.fx_vals
        = (secantPlotLoop f err1 err2 epsilon n x0 x1 fx0 fx1 s).2.x_vals.map
            f := by
  intro n
  induction n with
  | zero => intro x0 x1 fx0 fx1 s h; exact h
  | succ n ih =>
    intro x0 x1 fx0 fx1 s h
    simp only [secantPlotLoop]
    split_ifs with hc1 hc2
    · simpa using h
    · simp [h]
    · exact ih x1 (x1 - fx1 * (x1 - x0) / (fx1 - fx0)) fx1
        (f (x1 - fx1 * (x1 - x0) / (fx1 - fx0)))
        ⟨s.x_vals ++ [x1 - fx1 * (x1 - x0) / (fx1 - fx0)],
         s.fx_vals ++ [f (x1 - fx1 * (x1 - x0) / (fx1 - fx0))],
         s.slopes ++ [fx1 - fx0], s.passes + 1, s.prints + 1⟩ (by simp [h])

/-- Claim C10: whenever one of the three `*_with_plot` functions returns a
    pair of sequences, the two sequences are pointwise consistent —
    `fx_vals = x_vals.map f` for the supplied evaluator `f` (hence they also
    have equal length). -/
theorem plot_sequences_pointwise_consistent :
    (∀ (a b : ℚ) (M : Nat) (err1 epsilon : ℚ) (f : ℚ → ℚ),
      bisect_method_with_plot a b M err1 epsilon f = .sameSign ∨
      ∃ xs, bisect_method_with_plot a b M err1 epsilon f
          = .seqs xs (xs.map f)) ∧
    (∀ (f fprime : ℚ → ℚ) (x0 : ℚ) (nmax : Nat) (err1 err2 epsilon : ℚ),
      (newton_method_with_plot f fprime x0 nmax err1 err2 epsilon).2
        = (newton_method_with_plot f fprime x0 nmax err1 err2
            epsilon).1.map f) ∧
    (∀ (f : ℚ → ℚ) (x0 x1 : ℚ) (nmax : Nat) (err1 err2 epsilon : ℚ),
      (secant_method_with_plot f x0 x1 nmax err1 err2 epsilon).2
        = (secant_method_with_plot f x0 x1 nmax err1 err2
            epsilon).1.map f) := by
  refine ⟨?_, ?_, ?_⟩
  · intro a b M err1 epsilon f
    by_cases h : sign (f a) = sign (f b)
    · left
      simp [bisect_method_with_plot, h]
    · right
      have hm : (bisect_plot_core a b M err1 epsilon f 0).2.fx_vals
          = (bisect_plot_core a b M err1 epsilon f 0).2.x_vals.map f :=
        bisectPlotLoop_map f err1 epsilon M a b (f a) (f b) (b - a)
          ⟨[], [], [], 0, 0 + 1⟩ (by simp)
      exact ⟨(bisect_plot_core a b M err1 epsilon f 0).2.x_vals,
        by simp [bisect_method_with_plot, h, hm]⟩
  · intro f fprime x0 nmax err1 err2 epsilon
    have hm : (newton_plot_core f fprime x0 nmax err1 err2 epsilon 0).2.fx_vals
        = (newton_plot_core f fprime x0 nmax err1 err2
            epsilon 0).2.x_vals.map f :=
      newtonPlotLoop_map f fprime err1 err2 epsilon nmax x0 (f x0)
        ⟨[x0], [f x0], [], 0, 0 + 2⟩ (by simp)
    simpa [newton_method_with_plot] using hm
  · intro f x0 x1 nmax err1 err2 epsilon
    have hm : (secant_plot_core f x0 x1 nmax err1 err2 epsilon 0).2.fx_vals
        = (secant_plot_core f x0 x1 nmax err1 err2 epsilon 0).2.x_vals.map
            f :=
      secantPlotLoop_map f err1 err2 epsilon nmax x0 x1 (f x0) (f x1)
        ⟨[x0, x1], [f x0, f x1], [], 0, 0 + 2⟩ (by simp)
    simpa [secant_method_with_plot] using hm

end RootFind
